import Mathlib

/-!
Verification of the announcement synchronization core of the Events_Dashboard
repository (`ORIGINAL_SYNC_SYSTEM_BACKUP.js`, `cloud_sync_fix.js`,
`fix_deletion_sync.js`).

Times are modelled as integer milliseconds since the epoch: the JavaScript code
stores ISO date strings and compares them through `new Date(...)`, whose
ordering is exactly the ordering of their millisecond values.  A record's
`endDate + 'T' + endTime` pair is modelled by the single parsed instant
`visibleUntil`.  A missing/falsy `lastModified` or `createdAt` is `none`.
-/

/-- The Announcement record as consumed by the sync engine.
`id`/`text` are the fields checked by the merge's `ann.id && ann.text`
validation (JS string truthiness: the empty string is falsy).
`lastModified`/`createdAt` are the parsed instants of the stored ISO strings,
`none` when the field is absent.  `visibleUntil` is the parsed instant of
`ann.endDate + 'T' + ann.endTime`. -/
structure Announcement where
  id : String
  text : String
  lastModified : Option Int
  createdAt : Option Int
  visibleUntil : Int
deriving DecidableEq, Repr

/-- One hour in milliseconds (the JS code divides by `1000 * 60 * 60`). -/
def msPerHour : Int := 1000 * 60 * 60

/-- `if (!ann.lastModified) ann.lastModified = ann.createdAt || new Date().toISOString();`
— the backward-compatibility backfill both merge passes apply (in place) to a
record whose `lastModified` is missing.  `now` is the wall-clock instant the
JS reads for the fallback. -/
def backfillLastModified (now : Int) (a : Announcement) : Announcement :=
  match a.lastModified with
  | some _ => a
  | none => { a with lastModified := some (a.createdAt.getD now) }

/-- `new Date(x) > new Date(y)` on (possibly missing) instants: strictly
greater when both are valid, `false` otherwise (NaN comparisons are falsy). -/
def jsDateGt : Option Int → Option Int → Bool
  | some x, some y => decide (y < x)
  | _, _ => false

/-- The merge's `if (ann.id && ann.text)` basic validation of cloud records. -/
def validRemote (r : Announcement) : Bool :=
  !(r.id = "") && !(r.text = "")

/-- The expiry filter `hoursSinceEnd < 24` with
`hoursSinceEnd = (now - endDate) / (1000*60*60)`: keep a record exactly when
its end instant is less than 24 hours before `now`. -/
def keepAfterPrune (now : Int) (a : Announcement) : Bool :=
  decide (now - a.visibleUntil < 24 * msPerHour)

/-- The `announcementMap` (a JS `Map` keyed by `ann.id`), modelled as an
insertion-ordered association list, faithful to `Map` iteration order. -/
abbrev AnnMap : Type := List (String × Announcement)

/-- `Map.get`. -/
def mapGet : AnnMap → String → Option Announcement
  | [], _ => none
  | p :: t, k => if p.1 = k then some p.2 else mapGet t k

/-- `Map.set`: update in place (keeping the entry's position) when the key is
present, else append.  A JS `Map` never holds a key twice, so replacing the
first occurrence is exact. -/
def mapSet : AnnMap → String → Announcement → AnnMap
  | [], k, v => [(k, v)]
  | p :: t, k, v => if p.1 = k then (k, v) :: t else p :: mapSet t k v

/-- `Array.from(announcementMap.values())` in insertion order. -/
def mapValues (m : AnnMap) : List Announcement :=
  m.map (fun p => p.2)

/-- The first `forEach` of `mergeAnnouncements`: backfill `lastModified`
(mutating the record) and `announcementMap.set(ann.id, ann)`. -/
def localStep (now : Int) (m : AnnMap) (a : Announcement) : AnnMap :=
  let a2 := backfillLastModified now a
  mapSet m a2.id a2

/-- The second `forEach` of `mergeAnnouncements`: skip records failing
`ann.id && ann.text`; otherwise backfill, then insert when the id is new and
replace only when the cloud `lastModified` is strictly greater. -/
def remoteStep (now : Int) (m : AnnMap) (r : Announcement) : AnnMap :=
  if validRemote r then
    let r2 := backfillLastModified now r
    match mapGet m r2.id with
    | none => mapSet m r2.id r2
    | some ex =>
      if jsDateGt r2.lastModified ex.lastModified then mapSet m r2.id r2 else m
  else m

/-- The id-keyed map `mergeAnnouncements` builds: local pass then cloud pass. -/
def mergeMap (localA remoteA : List Announcement) (now : Int) : AnnMap :=
  remoteA.foldl (remoteStep now) (localA.foldl (localStep now) [])

/-- `mergeAnnouncements(localAnnouncements, cloudAnnouncements)` from
`ORIGINAL_SYNC_SYSTEM_BACKUP.js` (the `cloud_sync_fix.js` override has the
same logic): build the id map, then filter out records whose end instant is
24 hours or more in the past.  `now` is the wall-clock instant the function
reads internally. -/
def mergeAnnouncements (localA remoteA : List Announcement) (now : Int) : List Announcement :=
  (mapValues (mergeMap localA remoteA now)).filter (keepAfterPrune now)

/-- State of `localAnnouncements` after `mergeAnnouncements` returns: the
first `forEach` backfills a missing `lastModified` on every local record in
place, so the caller's array now holds the backfilled records. -/
def mergeLocalAfter (localA : List Announcement) (now : Int) : List Announcement :=
  localA.map (backfillLastModified now)

/-- State of `cloudAnnouncements` after `mergeAnnouncements` returns: records
passing the `ann.id && ann.text` check are backfilled in place, the rest are
untouched. -/
def mergeRemoteAfter (remoteA : List Announcement) (now : Int) : List Announcement :=
  remoteA.map (fun r => if validRemote r then backfillLastModified now r else r)

/-- The ids of a record list, used for uniqueness hypotheses (the data model
requires `id` unique within any reconciled set). -/
def idsOf (l : List Announcement) : List String :=
  l.map (fun a => a.id)

/-- A record satisfying the spec's data model as far as the merge consults it:
a (truthy) id, non-empty text and a present `lastModified`. -/
def ValidAnn (a : Announcement) : Prop :=
  a.id ≠ "" ∧ a.text ≠ "" ∧ a.lastModified.isSome = true

instance : DecidablePred ValidAnn := fun a => by
  unfold ValidAnn; infer_instance

-- ===== basic lemmas on the map and the record helpers =====

theorem backfill_id (now : Int) (a : Announcement) :
    (backfillLastModified now a).id = a.id := by
  unfold backfillLastModified
  cases a.lastModified <;> rfl

theorem backfill_of_isSome (now : Int) (a : Announcement)
    (h : a.lastModified.isSome = true) : backfillLastModified now a = a := by
  obtain ⟨i, tx, lm, ca, vu⟩ := a
  cases lm with
  | none => simp at h
  | some t => rfl

theorem backfill_isSome (now : Int) (a : Announcement) :
    (backfillLastModified now a).lastModified.isSome = true := by
  obtain ⟨i, tx, lm, ca, vu⟩ := a
  cases lm <;> rfl

theorem jsDateGt_irrefl (x : Option Int) : jsDateGt x x = false := by
  cases x <;> simp [jsDateGt]

theorem mapGet_mapSet (m : AnnMap) (k k' : String) (v : Announcement) :
    mapGet (mapSet m k v) k' = if k = k' then some v else mapGet m k' := by
  induction m with
  | nil => rfl
  | cons p t ih =>
    by_cases hp : p.1 = k
    · by_cases h : k = k'
      · simp [mapSet, mapGet, hp, h]
      · have hp' : p.1 ≠ k' := by rw [hp]; exact h
        simp [mapSet, mapGet, hp, h, hp']
    · by_cases hpk : p.1 = k'
      · have h : k ≠ k' := fun he => hp (he ▸ hpk)
        have hk : k' ≠ k := fun he => h he.symm
        simp [mapSet, mapGet, hp, hpk, h, hk]
      · simp [mapSet, mapGet, hp, hpk, ih]

/-- The value `remoteStep` leaves at key `r.id`, as a function of the previous
value there: skip invalid records, insert new ids, replace only on strictly
newer `lastModified`. -/
def resolveRemote (now : Int) (prev : Option Announcement) (r : Announcement) :
    Option Announcement :=
  if validRemote r then
    let r2 := backfillLastModified now r
    match prev with
    | none => some r2
    | some ex => if jsDateGt r2.lastModified ex.lastModified then some r2 else some ex
  else prev

theorem mapGet_localStep (now : Int) (m : AnnMap) (a : Announcement) (i : String) :
    mapGet (localStep now m a) i =
      if a.id = i then some (backfillLastModified now a) else mapGet m i := by
  unfold localStep
  rw [mapGet_mapSet, backfill_id]

theorem mapGet_remoteStep (now : Int) (m : AnnMap) (r : Announcement) (i : String) :
    mapGet (remoteStep now m r) i =
      if r.id = i then resolveRemote now (mapGet m i) r else mapGet m i := by
  unfold remoteStep resolveRemote
  by_cases hv : validRemote r
  · simp only [hv, if_true]
    rw [backfill_id]
    by_cases hi : r.id = i
    · subst hi
      cases hg : mapGet m r.id with
      | none => simp [hg, mapGet_mapSet, backfill_id]
      | some ex =>
        simp only [hg]
        by_cases hgt : jsDateGt (backfillLastModified now r).lastModified ex.lastModified <;>
          simp [hgt, mapGet_mapSet, backfill_id, hg]
    · cases hg : mapGet m r.id with
      | none => simp [hg, mapGet_mapSet, backfill_id, hi]
      | some ex =>
        simp only [hg]
        by_cases hgt : jsDateGt (backfillLastModified now r).lastModified ex.lastModified <;>
          simp [hgt, mapGet_mapSet, backfill_id, hi]
  · simp [hv]

theorem mapGet_localFold_absent (now : Int) (l : List Announcement) (m : AnnMap)
    (i : String) (h : ∀ a ∈ l, a.id ≠ i) :
    mapGet (l.foldl (localStep now) m) i = mapGet m i := by
  induction l generalizing m with
  | nil => rfl
  | cons a t ih =>
    rw [List.foldl_cons, ih _ (fun x hx => h x (List.mem_cons_of_mem _ hx)),
      mapGet_localStep]
    simp [h a (List.mem_cons_self a t)]

theorem mapGet_localFold_mem (now : Int) (l : List Announcement) (m : AnnMap)
    (a : Announcement) (hnd : (idsOf l).Nodup) (ha : a ∈ l) :
    mapGet (l.foldl (localStep now) m) a.id = some (backfillLastModified now a) := by
  induction l generalizing m with
  | nil => cases ha
  | cons b t ih =>
    rw [List.foldl_cons]
    rcases List.mem_cons.mp ha with hab | hat
    · subst hab
      have hnotin : ∀ x ∈ t, x.id ≠ a.id := by
        intro x hx he
        exact (List.nodup_cons.mp hnd).1 (List.mem_map.mpr ⟨x, hx, he⟩)
      rw [mapGet_localFold_absent now t _ _ hnotin, mapGet_localStep]
      simp
    · exact ih _ (List.nodup_cons.mp hnd).2 hat

theorem mapGet_remoteFold_absent (now : Int) (l : List Announcement) (m : AnnMap)
    (i : String) (h : ∀ r ∈ l, r.id ≠ i) :
    mapGet (l.foldl (remoteStep now) m) i = mapGet m i := by
  induction l generalizing m with
  | nil => rfl
  | cons r t ih =>
    rw [List.foldl_cons, ih _ (fun x hx => h x (List.mem_cons_of_mem _ hx)),
      mapGet_remoteStep]
    simp [h r (List.mem_cons_self r t)]

theorem mapGet_remoteFold_mem (now : Int) (l : List Announcement) (m : AnnMap)
    (r : Announcement) (hnd : (idsOf l).Nodup) (hr : r ∈ l) :
    mapGet (l.foldl (remoteStep now) m) r.id = resolveRemote now (mapGet m r.id) r := by
  induction l generalizing m with
  | nil => cases hr
  | cons b t ih =>
    rw [List.foldl_cons]
    rcases List.mem_cons.mp hr with hrb | hrt
    · subst hrb
      have hnotin : ∀ x ∈ t, x.id ≠ r.id := by
        intro x hx he
        exact (List.nodup_cons.mp hnd).1 (List.mem_map.mpr ⟨x, hx, he⟩)
      rw [mapGet_remoteFold_absent now t _ _ hnotin, mapGet_remoteStep]
      simp
    · have hbd : b.id ≠ r.id := by
        intro he
        exact (List.nodup_cons.mp hnd).1 (List.mem_map.mpr ⟨r, hrt, he.symm⟩)
      rw [ih _ (List.nodup_cons.mp hnd).2 hrt, mapGet_remoteStep]
      simp [hbd]

/-- Well-formedness of the announcement map: keys are unique (a JS `Map`
cannot hold a key twice) and every entry is stored under its record's id. -/
def mapWF (m : AnnMap) : Prop :=
  (m.map (fun p => p.1)).Nodup ∧ ∀ p ∈ m, p.2.id = p.1

theorem mem_mapSet (m : AnnMap) (k : String) (v : Announcement) (p : String × Announcement)
    (h : p ∈ mapSet m k v) : p ∈ m ∨ p = (k, v) := by
  induction m with
  | nil => simp [mapSet] at h; right; exact h
  | cons q t ih =>
    by_cases hq : q.1 = k
    · simp only [mapSet, hq, if_true] at h
      rcases List.mem_cons.mp h with h1 | h1
      · right; exact h1
      · left; exact List.mem_cons_of_mem _ h1
    · simp only [mapSet, hq, if_false] at h
      rcases List.mem_cons.mp h with h1 | h1
      · left; exact h1 ▸ List.mem_cons_self q t
      · rcases ih h1 with h2 | h2
        · left; exact List.mem_cons_of_mem _ h2
        · right; exact h2

theorem keys_mapSet (m : AnnMap) (k : String) (v : Announcement) (x : String)
    (h : x ∈ (mapSet m k v).map (fun p => p.1)) :
    x ∈ m.map (fun p => p.1) ∨ x = k := by
  rcases List.mem_map.mp h with ⟨p, hp, hpx⟩
  rcases mem_mapSet m k v p hp with h1 | h1
  · left; exact hpx ▸ List.mem_map_of_mem _ h1
  · right; rw [← hpx, h1]

theorem mapWF_mapSet (m : AnnMap) (k : String) (v : Announcement)
    (hwf : mapWF m) (hv : v.id = k) : mapWF (mapSet m k v) := by
  induction m with
  | nil => exact ⟨by simp [mapSet], by simp [mapSet, hv]⟩
  | cons q t ih =>
    obtain ⟨hnd, hids⟩ := hwf
    have hndt := (List.nodup_cons.mp hnd).2
    have hqt := (List.nodup_cons.mp hnd).1
    have hwt : mapWF t := ⟨hndt, fun p hp => hids p (List.mem_cons_of_mem _ hp)⟩
    by_cases hq : q.1 = k
    · constructor
      · simp only [mapSet, hq, if_true, List.map_cons, List.nodup_cons]
        exact ⟨hq ▸ hqt, hndt⟩
      · intro p hp
        simp only [mapSet, hq, if_true] at hp
        rcases List.mem_cons.mp hp with h1 | h1
        · rw [h1]; exact hv
        · exact hids p (List.mem_cons_of_mem _ h1)
    · obtain ⟨ihnd, ihids⟩ := ih hwt
      constructor
      · simp only [mapSet, hq, if_false, List.map_cons, List.nodup_cons]
        refine ⟨fun hx => ?_, ihnd⟩
        rcases keys_mapSet t k v q.1 hx with h1 | h1
        · exact hqt h1
        · exact hq h1
      · intro p hp
        simp only [mapSet, hq, if_false] at hp
        rcases List.mem_cons.mp hp with h1 | h1
        · rw [h1]; exact hids q (List.mem_cons_self q t)
        · exact ihids p h1

theorem mapWF_localStep (now : Int) (m : AnnMap) (a : Announcement)
    (hwf : mapWF m) : mapWF (localStep now m a) :=
  mapWF_mapSet m _ _ hwf rfl

theorem mapWF_remoteStep (now : Int) (m : AnnMap) (r : Announcement)
    (hwf : mapWF m) : mapWF (remoteStep now m r) := by
  unfold remoteStep
  by_cases hv : validRemote r
  · simp only [hv, if_true]
    cases hg : mapGet m (backfillLastModified now r).id with
    | none => exact mapWF_mapSet m _ _ hwf rfl
    | some ex =>
      by_cases hgt : jsDateGt (backfillLastModified now r).lastModified ex.lastModified <;>
        simp only [hgt, if_true, if_false]
      · exact mapWF_mapSet m _ _ hwf rfl
      · exact hwf
  · simp only [hv, if_false]; exact hwf

theorem mapWF_localFold (now : Int) (l : List Announcement) (m : AnnMap)
    (hwf : mapWF m) : mapWF (l.foldl (localStep now) m) := by
  induction l generalizing m with
  | nil => exact hwf
  | cons a t ih => exact ih _ (mapWF_localStep now m a hwf)

theorem mapWF_remoteFold (now : Int) (l : List Announcement) (m : AnnMap)
    (hwf : mapWF m) : mapWF (l.foldl (remoteStep now) m) := by
  induction l generalizing m with
  | nil => exact hwf
  | cons r t ih => exact ih _ (mapWF_remoteStep now m r hwf)

theorem mapWF_mergeMap (localA remoteA : List Announcement) (now : Int) :
    mapWF (mergeMap localA remoteA now) :=
  mapWF_remoteFold now remoteA _ (mapWF_localFold now localA [] ⟨List.nodup_nil, by simp⟩)

theorem mem_iff_mapGet (m : AnnMap) (hwf : mapWF m) (k : String) (v : Announcement) :
    (k, v) ∈ m ↔ mapGet m k = some v := by
  induction m with
  | nil => simp [mapGet]
  | cons p t ih =>
    obtain ⟨hnd, hids⟩ := hwf
    have hwt : mapWF t :=
      ⟨(List.nodup_cons.mp hnd).2, fun q hq => hids q (List.mem_cons_of_mem _ hq)⟩
    constructor
    · intro h
      rcases List.mem_cons.mp h with h1 | h1
      · rw [← h1]; simp [mapGet]
      · have hk : k ∈ t.map (fun q => q.1) := by
          exact List.mem_map.mpr ⟨(k, v), h1, rfl⟩
        have hpk : p.1 ≠ k := by
          intro he
          exact (List.nodup_cons.mp hnd).1 (by simpa [he] using hk)
        simp only [mapGet, hpk, if_false]
        exact (ih hwt).mp h1
    · intro h
      by_cases hpk : p.1 = k
      · simp only [mapGet, hpk, if_true] at h
        have hv2 : v = p.2 := by injection h with h2; exact h2.symm
        have hkv : (k, v) = p := by
          rw [hv2, ← hpk]
        rw [hkv]
        exact List.mem_cons_self p t
      · simp only [mapGet, hpk, if_false] at h
        exact List.mem_cons_of_mem _ ((ih hwt).mpr h)

theorem mem_mapValues_iff (m : AnnMap) (hwf : mapWF m) (v : Announcement) :
    v ∈ mapValues m ↔ mapGet m v.id = some v := by
  constructor
  · intro h
    rcases List.mem_map.mp h with ⟨p, hp, hpv⟩
    have hk : p.1 = v.id := by rw [← hpv]; exact (hwf.2 p hp).symm
    have : (v.id, v) ∈ m := by
      have : p = (v.id, v) := Prod.ext hk (by exact hpv)
      exact this ▸ hp
    exact (mem_iff_mapGet m hwf v.id v).mp this
  · intro h
    have := (mem_iff_mapGet m hwf v.id v).mpr h
    exact List.mem_map.mpr ⟨(v.id, v), this, rfl⟩

/-- Membership in the merge output: a record is in `mergeAnnouncements` exactly
when the final id map holds it at its own id and it survives the 24h filter. -/
theorem mem_merge_iff (localA remoteA : List Announcement) (now : Int) (v : Announcement) :
    v ∈ mergeAnnouncements localA remoteA now ↔
      mapGet (mergeMap localA remoteA now) v.id = some v ∧ keepAfterPrune now v = true := by
  unfold mergeAnnouncements
  rw [List.mem_filter, mem_mapValues_iff _ (mapWF_mergeMap localA remoteA now)]

-- ===== list-level lemmas: seeding, fixpoint, provenance =====

theorem mapGet_append_left_none (m m' : AnnMap) (k : String) (h : mapGet m k = none) :
    mapGet (m ++ m') k = mapGet m' k := by
  induction m with
  | nil => rfl
  | cons p t ih =>
    by_cases hp : p.1 = k
    · simp [mapGet, hp] at h
    · simp only [mapGet, hp, if_false] at h
      simpa [mapGet, hp] using ih h

theorem mapSet_append_of_none (m : AnnMap) (k : String) (v : Announcement)
    (h : mapGet m k = none) : mapSet m k v = m ++ [(k, v)] := by
  induction m with
  | nil => rfl
  | cons p t ih =>
    by_cases hp : p.1 = k
    · simp [mapGet, hp] at h
    · simp only [mapGet, hp, if_false] at h
      simp [mapSet, hp, ih h]

/-- Seeding the map with records of pairwise-distinct fresh ids appends them
in order (JS `Map` preserves insertion order). -/
theorem localFold_append (now : Int) (l : List Announcement) (m : AnnMap)
    (h : ∀ a ∈ l, mapGet m a.id = none) (hnd : (idsOf l).Nodup) :
    l.foldl (localStep now) m =
      m ++ l.map (fun a => (a.id, backfillLastModified now a)) := by
  induction l generalizing m with
  | nil => simp
  | cons a t ih =>
    rw [List.foldl_cons]
    have hstep : localStep now m a = m ++ [(a.id, backfillLastModified now a)] := by
      simp only [localStep]
      rw [backfill_id, mapSet_append_of_none m a.id _ (h a (List.mem_cons_self a t))]
    have harg : ∀ x ∈ t, mapGet (m ++ [(a.id, backfillLastModified now a)]) x.id = none := by
      intro x hx
      have hxa : a.id ≠ x.id := by
        intro he
        exact (List.nodup_cons.mp hnd).1 (List.mem_map.mpr ⟨x, hx, he.symm⟩)
      rw [mapGet_append_left_none _ _ _ (h x (List.mem_cons_of_mem _ hx))]
      simp [mapGet, hxa]
    rw [hstep, ih _ harg (List.nodup_cons.mp hnd).2]
    simp

theorem remoteStep_invalid (now : Int) (m : AnnMap) (r : Announcement)
    (h : validRemote r = false) : remoteStep now m r = m := by
  simp [remoteStep, h]

/-- The cloud pass is a no-op when the map already holds, at each valid cloud
record's id, that same (backfilled) record: equal `lastModified` keeps local. -/
theorem remoteFold_fixpoint (now : Int) (l : List Announcement) (m : AnnMap)
    (h : ∀ r ∈ l, validRemote r = true →
      mapGet m r.id = some (backfillLastModified now r)) :
    l.foldl (remoteStep now) m = m := by
  induction l with
  | nil => rfl
  | cons r t ih =>
    rw [List.foldl_cons]
    have hstep : remoteStep now m r = m := by
      unfold remoteStep
      by_cases hv : validRemote r
      · simp only [hv, if_true]
        rw [backfill_id, h r (List.mem_cons_self r t) hv]
        simp [jsDateGt_irrefl]
      · simp [hv]
    rw [hstep]
    exact ih (fun x hx hv => h x (List.mem_cons_of_mem _ hx) hv)

theorem prov_mapSet (m : AnnMap) (k : String) (x v : Announcement)
    (h : v ∈ mapValues (mapSet m k x)) : v ∈ mapValues m ∨ v = x := by
  rcases List.mem_map.mp h with ⟨p, hp, hpv⟩
  rcases mem_mapSet m k x p hp with h1 | h1
  · left; exact hpv ▸ List.mem_map_of_mem _ h1
  · right; rw [← hpv, h1]

theorem prov_remoteStep (now : Int) (m : AnnMap) (r v : Announcement)
    (h : v ∈ mapValues (remoteStep now m r)) :
    v ∈ mapValues m ∨ (validRemote r = true ∧ v = backfillLastModified now r) := by
  unfold remoteStep at h
  by_cases hv : validRemote r
  · simp only [hv, if_true] at h
    cases hg : mapGet m (backfillLastModified now r).id with
    | none =>
      rw [hg] at h
      rcases prov_mapSet _ _ _ _ h with h1 | h1
      · left; exact h1
      · right; exact ⟨hv, h1⟩
    | some ex =>
      cases hgt : jsDateGt (backfillLastModified now r).lastModified ex.lastModified with
      | true =>
        simp only [hg, hgt, if_true] at h
        rcases prov_mapSet _ _ _ _ h with h1 | h1
        · left; exact h1
        · right; exact ⟨hv, h1⟩
      | false =>
        simp [hg, hgt] at h
        left; exact h
  · simp only [hv, if_false] at h
    left; exact h

theorem prov_localStep (now : Int) (m : AnnMap) (a v : Announcement)
    (h : v ∈ mapValues (localStep now m a)) :
    v ∈ mapValues m ∨ v = backfillLastModified now a := by
  unfold localStep at h
  exact prov_mapSet _ _ _ _ h

theorem prov_localFold (now : Int) (l : List Announcement) (m : AnnMap) (v : Announcement)
    (h : v ∈ mapValues (l.foldl (localStep now) m)) :
    v ∈ mapValues m ∨ ∃ a ∈ l, v = backfillLastModified now a := by
  induction l generalizing m with
  | nil => left; exact h
  | cons a t ih =>
    rw [List.foldl_cons] at h
    rcases ih _ h with h1 | ⟨x, hx, hxv⟩
    · rcases prov_localStep now m a v h1 with h2 | h2
      · left; exact h2
      · right; exact ⟨a, List.mem_cons_self a t, h2⟩
    · right; exact ⟨x, List.mem_cons_of_mem _ hx, hxv⟩

theorem prov_remoteFold (now : Int) (l : List Announcement) (m : AnnMap) (v : Announcement)
    (h : v ∈ mapValues (l.foldl (remoteStep now) m)) :
    v ∈ mapValues m ∨ ∃ r ∈ l, validRemote r = true ∧ v = backfillLastModified now r := by
  induction l generalizing m with
  | nil => left; exact h
  | cons r t ih =>
    rw [List.foldl_cons] at h
    rcases ih _ h with h1 | ⟨x, hx, hxv⟩
    · rcases prov_remoteStep now m r v h1 with h2 | h2
      · left; exact h2
      · right; exact ⟨r, List.mem_cons_self r t, h2⟩
    · right; exact ⟨x, List.mem_cons_of_mem _ hx, hxv⟩

-- ===== Sync Scheduler: syncAnnouncementsFromCloud =====

/-- `this.announcements.sort((a,b) => a.id.localeCompare(b.id))` — ascending
insertion sort by id (the comparison details are inert for the theorems). -/
def insertById (a : Announcement) : List Announcement → List Announcement
  | [] => [a]
  | b :: t => if a.id ≤ b.id then a :: b :: t else b :: insertById a t

def sortById (l : List Announcement) : List Announcement :=
  l.foldr insertById []

/-- Client state touched by `syncAnnouncementsFromCloud`:
`announcements` is `this.announcements`, `stored` the
`dashboard_announcements` localStorage value, and the remaining fields the
`this.lastLocalSaveTime` / `this.lastSyncTime` / `this.syncInProgress` /
`this.cloudSyncEnabled` properties (`lastLocalSaveTime || 0` is modelled by
defaulting the field to 0). -/
structure SyncState where
  announcements : List Announcement
  stored : List Announcement
  lastLocalSaveTime : Int
  lastSyncTime : Int
  syncInProgress : Bool
  cloudSyncEnabled : Bool
deriving DecidableEq, Repr

/-- `syncAnnouncementsFromCloud` from `ORIGINAL_SYNC_SYSTEM_BACKUP.js` as a
state transition.  `fetchRes` is the outcome of `await this.loadFromCloud()`:
`none` when it throws (the `catch` swallows the error), `some cloudData`
otherwise (the returned value is always an array).  `now` stands for the
`Date.now()` reads of this invocation.  The `finally` clause clears
`syncInProgress` on every path that entered the `try`.  On the merge path the
two `JSON.stringify(xs.sort(...))` calls sort `this.announcements` (already
mutated by the merge's backfill) and the merged array in place before
comparing them. -/
def syncAnnouncementsFromCloud (s : SyncState) (fetchRes : Option (List Announcement))
    (now : Int) : SyncState :=
  if !s.cloudSyncEnabled || s.syncInProgress then s
  else
    match fetchRes with
    | none => { s with syncInProgress := false }
    | some cloudData =>
      if now - s.lastLocalSaveTime < 5000 then
        { s with lastSyncTime := now, syncInProgress := false }
      else
        let merged := mergeAnnouncements s.announcements cloudData now
        let localSorted := sortById (mergeLocalAfter s.announcements now)
        let mergedSorted := sortById merged
        if localSorted ≠ mergedSorted then
          { s with announcements := mergedSorted, stored := mergedSorted,
                   lastSyncTime := now, syncInProgress := false }
        else
          { s with announcements := localSorted,
                   lastSyncTime := now, syncInProgress := false }

-- ===== Remote Store Client: loadFromCloud envelope normalization =====

/-- JSON values as delivered by `response.json()`. -/
inductive JsonVal where
  | arr (elems : List JsonVal)
  | obj (fields : List (String × JsonVal))
  | str (s : String)
  | num (n : Int)
  | jbool (b : Bool)
  | null

/-- JS property access `v[k]`: a field of an object, `undefined` (`none`)
otherwise. -/
def jsGet : JsonVal → String → Option JsonVal
  | JsonVal.obj fs, k => (fs.find? (fun p => p.1 = k)).map (fun p => p.2)
  | _, _ => none

/-- JS truthiness of a possibly-undefined value. -/
def jsTruthy : Option JsonVal → Bool
  | none => false
  | some JsonVal.null => false
  | some (JsonVal.jbool b) => b
  | some (JsonVal.num n) => !(n = 0)
  | some (JsonVal.str s) => !(s = "")
  | some (JsonVal.arr _) => true
  | some (JsonVal.obj _) => true

/-- The two failure modes of `loadFromCloud`: `unavailable` models the thrown
`Cloud fetch failed: <status>` / network errors, `formatError` the thrown
`Invalid cloud data format`. -/
inductive CloudError where
  | unavailable
  | formatError
deriving DecidableEq, Repr

/-- Branches 3 and 4 of the normalization chain: direct array format, then
wrapped format (`data.announcements && Array.isArray(data.announcements)`). -/
def loadFallback (data : JsonVal) : Except CloudError (List JsonVal) :=
  match data with
  | JsonVal.arr l => Except.ok l
  | _ =>
    match jsGet data "announcements" with
    | some (JsonVal.arr l) => Except.ok l
    | _ => Except.error CloudError.formatError

/-- The four-branch `if/else` chain of `loadFromCloud`:
`data.record && data.record.announcements && Array.isArray(...)` (JSONBin
wrapper), then `data.record && Array.isArray(data.record)` (JSONBin direct
array), then the two fallback branches.  `&&` short-circuits, so
`data.record.announcements` is only read when `data.record` is truthy. -/
def loadNormalize (data : JsonVal) : Except CloudError (List JsonVal) :=
  match jsGet data "record" with
  | some r =>
    if jsTruthy (some r) then
      match jsGet r "announcements" with
      | some (JsonVal.arr l) => Except.ok l
      | _ =>
        match r with
        | JsonVal.arr l => Except.ok l
        | _ => loadFallback data
    else loadFallback data
  | none => loadFallback data

/-- `loadFromCloud` from `ORIGINAL_SYNC_SYSTEM_BACKUP.js` past the URL check:
`resp` is `none` when `fetch` itself rejects (network failure), otherwise the
HTTP status and parsed JSON body.  `response.ok` is `200 <= status < 300`. -/
def loadFromCloud (resp : Option (Nat × JsonVal)) : Except CloudError (List JsonVal) :=
  match resp with
  | none => Except.error CloudError.unavailable
  | some (status, data) =>
    if status < 200 || 300 ≤ status then Except.error CloudError.unavailable
    else loadNormalize data

/-- The response-body shapes named by the claim, written from the spec's
words: a bare array. -/
def ShapeBareArray (data : JsonVal) (l : List JsonVal) : Prop :=
  data = JsonVal.arr l

/-- Spec shape: a wrapped object `\x7b announcements: [...] \x7d`. -/
def ShapeWrappedAnnouncements (data : JsonVal) (l : List JsonVal) : Prop :=
  jsGet data "announcements" = some (JsonVal.arr l)

/-- Spec shape: a wrapper holding an array `\x7b record: [...] \x7d`. -/
def ShapeRecordArray (data : JsonVal) (l : List JsonVal) : Prop :=
  jsGet data "record" = some (JsonVal.arr l)

/-- Spec shape: a wrapper holding a wrapped object
`\x7b record: \x7b announcements: [...] \x7d \x7d`. -/
def ShapeRecordWrapped (data : JsonVal) (l : List JsonVal) : Prop :=
  ∃ r, jsGet data "record" = some r ∧ jsGet r "announcements" = some (JsonVal.arr l)

/-- One of the four recognized envelope shapes, containing the array `l`. -/
def AnyShape (data : JsonVal) (l : List JsonVal) : Prop :=
  ShapeBareArray data l ∨ ShapeWrappedAnnouncements data l ∨
    ShapeRecordArray data l ∨ ShapeRecordWrapped data l

-- ===== CRUD facade: enhanced saveAnnouncements retry loop =====

/-- Observable outcome of the bounded retry loop: how many `saveToCloud`
network calls were made, the backoff sleeps performed (ms), and whether a
call succeeded. -/
structure RetryOutcome where
  calls : Nat
  waits : List Nat
  success : Bool
deriving DecidableEq, Repr

/-- The `while (retryCount < maxRetries)` loop of the enhanced
`saveAnnouncements` in `cloud_sync_fix.js` (the `fix_deletion_sync.js`
variant is the same loop): `netOk i` says whether the attempt made with
`retryCount = i` succeeds; `remaining` is `maxRetries - retryCount`.  On
failure `retryCount` is incremented and, when `retryCount < maxRetries`
still holds, the code sleeps `1000 * retryCount` ms before the next attempt. -/
def retryLoop (netOk : Nat → Bool) : Nat → Nat → RetryOutcome
  | _, 0 => ⟨0, [], false⟩
  | retryCount, remaining + 1 =>
    if netOk retryCount then ⟨1, [], true⟩
    else
      match remaining with
      | 0 => ⟨1, [], false⟩
      | rem + 1 =>
        let rest := retryLoop netOk (retryCount + 1) (rem + 1)
        ⟨rest.calls + 1, 1000 * (retryCount + 1) :: rest.waits, rest.success⟩

/-- Result of the enhanced `saveAnnouncements`: the set written to
localStorage (written first, unconditionally), the retry loop's observables,
and whether the exhausted-retries error (\"saved locally\" warning) was
surfaced. -/
structure SaveResult where
  stored : List Announcement
  calls : Nat
  waits : List Nat
  succeeded : Bool
  warnedSavedLocally : Bool
deriving DecidableEq, Repr

/-- The enhanced `saveAnnouncements` of `cloud_sync_fix.js`: save to
localStorage, then — when cloud sync is configured — up to `maxRetries = 3`
`saveToCloud` attempts.  The local write is never undone. -/
def saveAnnouncements (anns : List Announcement) (cloudEnabled : Bool)
    (netOk : Nat → Bool) : SaveResult :=
  let outcome := if cloudEnabled then retryLoop netOk 0 3 else ⟨0, [], false⟩
  { stored := anns
    calls := outcome.calls
    waits := outcome.waits
    succeeded := cloudEnabled && outcome.success
    warnedSavedLocally := cloudEnabled && !outcome.success }

-- ===== Claim C4: write-guard suppression =====

/-- C4 (write-guard suppression): when a reconciliation is triggered with
cloud sync enabled, no sync in flight, and the fetched data in hand, but less
than the 5000 ms guard window has elapsed since the last local save, the
whole state is unchanged except that `lastSyncTime` is set to `now`: the
in-memory announcements and the persisted local set are untouched and no
save of fetched data occurs. -/
theorem c4_write_guard_suppression (s : SyncState) (d : List Announcement) (now : Int)
    (henabled : s.cloudSyncEnabled = true) (hflight : s.syncInProgress = false)
    (hguard : now - s.lastLocalSaveTime < 5000) :
    syncAnnouncementsFromCloud s (some d) now = { s with lastSyncTime := now } := by
  obtain ⟨anns, st, llst, lst, sip, cse⟩ := s
  simp only at henabled hflight hguard
  subst henabled
  subst hflight
  simp [syncAnnouncementsFromCloud, hguard]

theorem c4_witness :
    syncAnnouncementsFromCloud ⟨[], [], 0, 0, false, true⟩ (some []) 1000 =
      { (⟨[], [], 0, 0, false, true⟩ : SyncState) with lastSyncTime := 1000 } :=
  c4_write_guard_suppression ⟨[], [], 0, 0, false, true⟩ [] 1000 rfl rfl (by decide)

-- ===== Claim C5: single-flight and always return to Idle =====

/-- C5 (single-flight, always back to Idle): a reconciliation arriving while
one is in progress leaves the state completely untouched (dropped, not
queued — no fetch result is consumed, nothing is merged or saved); and any
invocation that does enter the body — whatever the fetch outcome, including
failure (`fetchRes = none`) — finishes with `syncInProgress = false`.  The
transition function is total, so no invocation propagates an exception. -/
theorem c5_single_flight_idle (s : SyncState) (fetchRes : Option (List Announcement))
    (now : Int) :
    (s.syncInProgress = true → syncAnnouncementsFromCloud s fetchRes now = s) ∧
    (s.cloudSyncEnabled = true → s.syncInProgress = false →
      (syncAnnouncementsFromCloud s fetchRes now).syncInProgress = false) := by
  constructor
  · intro h
    simp [syncAnnouncementsFromCloud, h]
  · intro henabled hflight
    obtain ⟨anns, st, llst, lst, sip, cse⟩ := s
    simp only at henabled hflight
    subst henabled
    subst hflight
    simp only [syncAnnouncementsFromCloud]
    cases fetchRes with
    | none => simp
    | some d =>
      by_cases hguard : now - llst < 5000
      · simp [hguard]
      · simp only [hguard]
        split_ifs <;> simp

theorem c5_witness :
    syncAnnouncementsFromCloud ⟨[], [], 0, 0, true, true⟩ none 5 =
      (⟨[], [], 0, 0, true, true⟩ : SyncState) ∧
    (syncAnnouncementsFromCloud ⟨[], [], 0, 9, false, true⟩ none 5).syncInProgress = false :=
  ⟨(c5_single_flight_idle ⟨[], [], 0, 0, true, true⟩ none 5).1 rfl,
   (c5_single_flight_idle ⟨[], [], 0, 9, false, true⟩ none 5).2 rfl rfl⟩

-- ===== Claim C6: bounded remote-write retry =====

/-- C6 (bounded retry): with cloud sync on, a save whose remote attempts fail
twice then succeed makes exactly 3 network calls with increasing backoff
(1000 ms, 2000 ms) and succeeds without the warning; a save whose attempts
all fail makes exactly 3 calls, surfaces the saved-locally warning, and in
both cases the already-committed local write (`stored = anns`) stands;
moreover no behaviour of the network ever produces more than 3 calls. -/
theorem c6_retry_bound (anns : List Announcement) (netOk : Nat → Bool) :
    (netOk 0 = false → netOk 1 = false → netOk 2 = true →
      saveAnnouncements anns true netOk = ⟨anns, 3, [1000, 2000], true, false⟩) ∧
    (netOk 0 = false → netOk 1 = false → netOk 2 = false →
      saveAnnouncements anns true netOk = ⟨anns, 3, [1000, 2000], false, true⟩) ∧
    (saveAnnouncements anns true netOk).calls ≤ 3 := by
  refine ⟨?_, ?_, ?_⟩
  · intro h0 h1 h2
    simp [saveAnnouncements, retryLoop, h0, h1, h2]
  · intro h0 h1 h2
    simp [saveAnnouncements, retryLoop, h0, h1, h2]
  · cases h0 : netOk 0 <;> cases h1 : netOk 1 <;> cases h2 : netOk 2 <;>
      simp [saveAnnouncements, retryLoop, h0, h1, h2]

theorem c6_witness :
    saveAnnouncements [] true (fun i => decide (i = 2)) = ⟨[], 3, [1000, 2000], true, false⟩ ∧
    saveAnnouncements [] true (fun _ => false) = ⟨[], 3, [1000, 2000], false, true⟩ :=
  ⟨(c6_retry_bound [] (fun i => decide (i = 2))).1 rfl rfl rfl,
   (c6_retry_bound [] (fun _ => false)).2.1 rfl rfl rfl⟩

-- ===== Claim C8: purity of the merge (corrected) =====

/-- C8 counterexample: `mergeAnnouncements` does NOT leave its inputs
unmodified — the first `forEach` assigns `ann.lastModified` on a local record
that lacks it, so after the call the caller's array differs from what was
passed in; and because the backfill falls back to the execution-time clock
when `createdAt` is also missing, the mutated input depends on the wall-clock
read during execution. -/
theorem c8_counterexample :
    mergeLocalAfter [⟨"a", "txt", none, none, 0⟩] 1000 ≠ [⟨"a", "txt", none, none, 0⟩] ∧
    mergeLocalAfter [⟨"a", "txt", none, none, 0⟩] 1000 ≠
      mergeLocalAfter [⟨"a", "txt", none, none, 0⟩] 2000 := by
  decide

/-- C8 amended: the merge's result is a function of `(localSet, remoteSet,
now)` alone (it is defined as one), and as long as every input record already
carries a `lastModified` — as the data model requires — neither input list is
mutated: the local pass and the cloud pass leave every record exactly as it
was. -/
theorem c8_purity_amended (localA remoteA : List Announcement) (now : Int)
    (hl : ∀ a ∈ localA, a.lastModified.isSome = true)
    (hr : ∀ r ∈ remoteA, r.lastModified.isSome = true) :
    mergeLocalAfter localA now = localA ∧ mergeRemoteAfter remoteA now = remoteA := by
  constructor
  · unfold mergeLocalAfter
    have : ∀ a ∈ localA, backfillLastModified now a = id a := by
      intro a ha
      simp [backfill_of_isSome now a (hl a ha)]
    rw [List.map_congr_left this, List.map_id]
  · unfold mergeRemoteAfter
    have : ∀ r ∈ remoteA,
        (if validRemote r then backfillLastModified now r else r) = id r := by
      intro r hrr
      by_cases hv : validRemote r <;>
        simp [hv, backfill_of_isSome now r (hr r hrr)]
    rw [List.map_congr_left this, List.map_id]

theorem c8_witness :
    mergeLocalAfter [⟨"a", "txt", some 5, none, 0⟩] 1000 = [⟨"a", "txt", some 5, none, 0⟩] ∧
    mergeRemoteAfter [⟨"a", "txt", some 5, none, 0⟩] 1000 = [⟨"a", "txt", some 5, none, 0⟩] :=
  c8_purity_amended [⟨"a", "txt", some 5, none, 0⟩] [⟨"a", "txt", some 5, none, 0⟩] 1000
    (by decide) (by decide)

-- ===== Claim C1: last-writer-wins =====

theorem validRemote_of_valid (b : Announcement) (h : ValidAnn b) : validRemote b = true := by
  unfold validRemote
  simp [h.1, h.2.1]

/-- The final map's entry at the id of a local record `a` that collides with a
remote record `b` (unique ids on both sides, both records carrying their
`lastModified`): the strictly newer record, the local one on ties. -/
theorem mergeMap_get_collision (localA remoteA : List Announcement) (now : Int)
    (a b : Announcement) (hndL : (idsOf localA).Nodup) (hndR : (idsOf remoteA).Nodup)
    (ha : a ∈ localA) (hb : b ∈ remoteA) (hid : b.id = a.id)
    (hva : ValidAnn a) (hvb : ValidAnn b) :
    mapGet (mergeMap localA remoteA now) a.id =
      some (if jsDateGt b.lastModified a.lastModified then b else a) := by
  have hga : mapGet (localA.foldl (localStep now) []) a.id
      = some (backfillLastModified now a) :=
    mapGet_localFold_mem now localA [] a hndL ha
  have hgb : mapGet (mergeMap localA remoteA now) b.id =
      resolveRemote now (mapGet (localA.foldl (localStep now) []) b.id) b :=
    mapGet_remoteFold_mem now remoteA _ b hndR hb
  rw [hid, hga, backfill_of_isSome now a hva.2.2] at hgb
  rw [← hid] at hgb ⊢
  rw [hgb]
  unfold resolveRemote
  rw [validRemote_of_valid b hvb, backfill_of_isSome now b hvb.2.2]
  by_cases hgt : jsDateGt b.lastModified a.lastModified <;> simp [hgt]

/-- C1 (last-writer-wins): when a local record `a` and a remote record `b`
share an id (valid records, unique ids per side), the only record the merge
can retain at that id is the winner — `b` exactly when its `lastModified` is
strictly greater, `a` otherwise (so ties keep local) — and the winner is in
the output whenever it survives the expiry filter, regardless of which side
it came from. -/
theorem c1_last_writer_wins (localA remoteA : List Announcement) (now : Int)
    (a b : Announcement) (hndL : (idsOf localA).Nodup) (hndR : (idsOf remoteA).Nodup)
    (ha : a ∈ localA) (hb : b ∈ remoteA) (hid : b.id = a.id)
    (hva : ValidAnn a) (hvb : ValidAnn b) :
    (∀ c ∈ mergeAnnouncements localA remoteA now, c.id = a.id →
      c = (if jsDateGt b.lastModified a.lastModified then b else a)) ∧
    (keepAfterPrune now (if jsDateGt b.lastModified a.lastModified then b else a) = true →
      (if jsDateGt b.lastModified a.lastModified then b else a) ∈
        mergeAnnouncements localA remoteA now) := by
  have hget := mergeMap_get_collision localA remoteA now a b hndL hndR ha hb hid hva hvb
  constructor
  · intro c hc hcid
    have hmem := (mem_merge_iff localA remoteA now c).mp hc
    rw [hcid, hget] at hmem
    exact (Option.some_inj.mp hmem.1).symm
  · intro hkeep
    apply (mem_merge_iff localA remoteA now _).mpr
    refine ⟨?_, hkeep⟩
    have hwid : (if jsDateGt b.lastModified a.lastModified then b else a).id = a.id := by
      by_cases hgt : jsDateGt b.lastModified a.lastModified <;> simp [hgt, hid]
    rw [hwid, hget]

theorem c1_witness :
    keepAfterPrune 0 (if jsDateGt (some 20 : Option Int) (some 10) then
      (⟨"x", "new", some 20, none, 0⟩ : Announcement) else ⟨"x", "old", some 10, none, 0⟩) = true ∧
    (if jsDateGt (some 20 : Option Int) (some 10) then
      (⟨"x", "new", some 20, none, 0⟩ : Announcement) else ⟨"x", "old", some 10, none, 0⟩) ∈
      mergeAnnouncements [⟨"x", "old", some 10, none, 0⟩] [⟨"x", "new", some 20, none, 0⟩] 0 :=
  ⟨by decide,
   (c1_last_writer_wins [⟨"x", "old", some 10, none, 0⟩] [⟨"x", "new", some 20, none, 0⟩] 0
      ⟨"x", "old", some 10, none, 0⟩ ⟨"x", "new", some 20, none, 0⟩
      (by decide) (by decide) (by decide) (by decide) (by decide)
      (by decide) (by decide)).2 (by decide)⟩

-- ===== Claim C3: deletion non-propagation and remote additions (corrected) =====

/-- C3 counterexample: a remote record absent from the local set is NOT
always inserted into the result — here a fully valid remote-only record whose
visibility window ended 25 hours ago is pruned, so the output is empty. -/
theorem c3_counterexample :
    (⟨"r1", "hello", some 0, none, 0⟩ : Announcement) ∉
      mergeAnnouncements [] [⟨"r1", "hello", some 0, none, 0⟩] 90000000 ∧
    mergeAnnouncements [] [⟨"r1", "hello", some 0, none, 0⟩] 90000000 = [] := by
  decide

/-- C3 amended: the merge never removes a local record merely because it is
absent from the remote set — a local record (with its `lastModified` present)
whose id occurs nowhere in the remote set is in the output whenever it is not
expired; symmetrically, a remote record carrying an id and non-empty text
whose id is absent from the local set is inserted into the result whenever it
is not expired. -/
theorem c3_deletion_nonpropagation (localA remoteA : List Announcement) (now : Int)
    (a r : Announcement) (hndL : (idsOf localA).Nodup) (hndR : (idsOf remoteA).Nodup) :
    (a ∈ localA → a.lastModified.isSome = true → (∀ x ∈ remoteA, x.id ≠ a.id) →
      keepAfterPrune now a = true → a ∈ mergeAnnouncements localA remoteA now) ∧
    (r ∈ remoteA → ValidAnn r → (∀ x ∈ localA, x.id ≠ r.id) →
      keepAfterPrune now r = true → r ∈ mergeAnnouncements localA remoteA now) := by
  constructor
  · intro ha hlm habsent hkeep
    apply (mem_merge_iff localA remoteA now a).mpr
    refine ⟨?_, hkeep⟩
    unfold mergeMap
    rw [mapGet_remoteFold_absent now remoteA _ a.id habsent,
      mapGet_localFold_mem now localA [] a hndL ha, backfill_of_isSome now a hlm]
  · intro hr hvr habsent hkeep
    apply (mem_merge_iff localA remoteA now r).mpr
    refine ⟨?_, hkeep⟩
    unfold mergeMap
    rw [mapGet_remoteFold_mem now remoteA _ r hndR hr,
      mapGet_localFold_absent now localA [] r.id habsent]
    unfold resolveRemote
    rw [validRemote_of_valid r hvr, backfill_of_isSome now r hvr.2.2]
    simp [mapGet]

theorem c3_witness :
    (⟨"r1", "hello", some 0, none, 0⟩ : Announcement) ∈
      mergeAnnouncements [] [⟨"r1", "hello", some 0, none, 0⟩] 0 :=
  (c3_deletion_nonpropagation [] [⟨"r1", "hello", some 0, none, 0⟩] 0
      ⟨"r1", "hello", some 0, none, 0⟩ ⟨"r1", "hello", some 0, none, 0⟩
      (by decide) (by decide)).2 (by decide) (by decide) (by decide) (by decide)

-- ===== Claim C2: expiry pruning (corrected) =====

/-- C2 counterexample: the claim keeps every record not MORE than 24 hours
past its end, but a record whose `visibleUntil` is exactly 24 hours before
`now` — not more — is dropped by the code (its filter keeps only
`hoursSinceEnd < 24`). -/
theorem c2_counterexample :
    (⟨"a1", "txt", some 0, none, 0⟩ : Announcement) ∉
      mergeAnnouncements [⟨"a1", "txt", some 0, none, 0⟩] [] 86400000 ∧
    ¬ (86400000 - (⟨"a1", "txt", some 0, none, 0⟩ : Announcement).visibleUntil
        > 24 * msPerHour) := by
  decide

/-- C2 amended: the merge drops exactly those entries whose `visibleUntil` is
AT LEAST 24 hours before `now` (the claim said strictly more; the 24-hour
boundary itself is dropped): an uncontested local record is in the output iff
`now - visibleUntil < 24h`.  In particular a record at `now - 25h` is absent
and one at `now - 23h` is present. -/
theorem c2_expiry_pruning (localA remoteA : List Announcement) (now : Int)
    (a : Announcement) (hndL : (idsOf localA).Nodup) (ha : a ∈ localA)
    (hlm : a.lastModified.isSome = true) (habsent : ∀ x ∈ remoteA, x.id ≠ a.id) :
    a ∈ mergeAnnouncements localA remoteA now ↔ now - a.visibleUntil < 24 * msPerHour := by
  constructor
  · intro h
    have := ((mem_merge_iff localA remoteA now a).mp h).2
    unfold keepAfterPrune at this
    exact of_decide_eq_true this
  · intro h
    apply (mem_merge_iff localA remoteA now a).mpr
    refine ⟨?_, decide_eq_true h⟩
    unfold mergeMap
    rw [mapGet_remoteFold_absent now remoteA _ a.id habsent,
      mapGet_localFold_mem now localA [] a hndL ha, backfill_of_isSome now a hlm]

theorem c2_witness :
    ((⟨"h23", "t", some 0, none, 3600000⟩ : Announcement) ∈
      mergeAnnouncements [⟨"h23", "t", some 0, none, 3600000⟩] [] 86400000) ∧
    ¬ ((⟨"h25", "t", some 0, none, -3600000⟩ : Announcement) ∈
      mergeAnnouncements [⟨"h25", "t", some 0, none, -3600000⟩] [] 86400000) :=
  ⟨(c2_expiry_pruning [⟨"h23", "t", some 0, none, 3600000⟩] [] 86400000
      ⟨"h23", "t", some 0, none, 3600000⟩ (by decide) (by decide) (by decide)
      (by decide)).mpr (by decide),
   fun h => absurd ((c2_expiry_pruning [⟨"h25", "t", some 0, none, -3600000⟩] [] 86400000
      ⟨"h25", "t", some 0, none, -3600000⟩ (by decide) (by decide) (by decide)
      (by decide)).mp h) (by decide)⟩

-- ===== Claim C9: idempotence =====

/-- C9 (idempotence): merging a valid set (unique ids, valid records) with
itself returns the set itself up to expiry pruning — every non-expired record
appears unchanged, in order, and nothing else is in the output. -/
theorem c9_idempotence (S : List Announcement) (now : Int)
    (hnd : (idsOf S).Nodup) (hval : ∀ a ∈ S, ValidAnn a) :
    mergeAnnouncements S S now = S.filter (keepAfterPrune now) := by
  have hm0 : S.foldl (localStep now) [] =
      S.map (fun a => (a.id, backfillLastModified now a)) := by
    have h := localFold_append now S [] (fun a _ => rfl) hnd
    simpa using h
  have hfix : S.foldl (remoteStep now) (S.foldl (localStep now) []) =
      S.foldl (localStep now) [] :=
    remoteFold_fixpoint now S _ (fun r hr _ => mapGet_localFold_mem now S [] r hnd hr)
  unfold mergeAnnouncements mergeMap
  rw [hfix, hm0]
  have hv : mapValues (S.map (fun a => (a.id, backfillLastModified now a))) = S := by
    unfold mapValues
    rw [List.map_map]
    have hcong : ∀ a ∈ S,
        ((fun p => p.2) ∘ (fun a => (a.id, backfillLastModified now a))) a = id a := by
      intro a ha
      simp [backfill_of_isSome now a (hval a ha).2.2]
    rw [List.map_congr_left hcong, List.map_id]
  rw [hv]

theorem c9_witness :
    mergeAnnouncements [⟨"s1", "alive", some 7, some 3, 0⟩, ⟨"s2", "gone", some 7, some 3, -90000000⟩]
        [⟨"s1", "alive", some 7, some 3, 0⟩, ⟨"s2", "gone", some 7, some 3, -90000000⟩] 0 =
      List.filter (keepAfterPrune 0)
        [⟨"s1", "alive", some 7, some 3, 0⟩, ⟨"s2", "gone", some 7, some 3, -90000000⟩] :=
  c9_idempotence [⟨"s1", "alive", some 7, some 3, 0⟩, ⟨"s2", "gone", some 7, some 3, -90000000⟩]
    0 (by decide) (by decide)

-- ===== Claim C10: invalid remote records are silently ignored =====

/-- C10 (invalid remote records ignored): (1) deleting a cloud record that
fails the `ann.id && ann.text` check from the remote list leaves the merge
output unchanged — it is never inserted and never replaces a local record,
however new its `lastModified`; (2) every output record originates from the
local list or from a VALID remote record (so a remote-only addition survives
only with an id and non-empty text); (3) local records are not subjected to
the check: a local record with empty text still reaches the output. -/
theorem c10_invalid_remote_ignored (localA remoteA pre post : List Announcement)
    (r a : Announcement) (now : Int) :
    (validRemote r = false →
      mergeAnnouncements localA (pre ++ r :: post) now =
        mergeAnnouncements localA (pre ++ post) now) ∧
    (∀ v ∈ mergeAnnouncements localA remoteA now,
      (∃ x ∈ localA, v = backfillLastModified now x) ∨
      (∃ x ∈ remoteA, validRemote x = true ∧ v = backfillLastModified now x)) ∧
    ((idsOf localA).Nodup → a ∈ localA → a.lastModified.isSome = true → a.text = "" →
      (∀ x ∈ remoteA, x.id ≠ a.id) → keepAfterPrune now a = true →
      a ∈ mergeAnnouncements localA remoteA now) := by
  refine ⟨?_, ?_, ?_⟩
  · intro hinv
    unfold mergeAnnouncements mergeMap
    rw [List.foldl_append, List.foldl_cons, remoteStep_invalid now _ r hinv,
      List.foldl_append]
  · intro v hv
    have hvals : v ∈ mapValues (mergeMap localA remoteA now) :=
      (List.mem_filter.mp hv).1
    unfold mergeMap at hvals
    rcases prov_remoteFold now remoteA _ v hvals with h1 | h1
    · rcases prov_localFold now localA [] v h1 with h2 | h2
      · simp [mapValues] at h2
      · left; exact h2
    · right; exact h1
  · intro hnd ha hlm _ habsent hkeep
    apply (mem_merge_iff localA remoteA now a).mpr
    refine ⟨?_, hkeep⟩
    unfold mergeMap
    rw [mapGet_remoteFold_absent now remoteA _ a.id habsent,
      mapGet_localFold_mem now localA [] a hnd ha, backfill_of_isSome now a hlm]

theorem c10_witness :
    mergeAnnouncements [] [⟨"", "newer", some 99, none, 0⟩] 0 = mergeAnnouncements [] [] 0 ∧
    (⟨"loc", "", some 1, none, 0⟩ : Announcement) ∈
      mergeAnnouncements [⟨"loc", "", some 1, none, 0⟩] [] 0 :=
  ⟨(c10_invalid_remote_ignored [] [] [] [] ⟨"", "newer", some 99, none, 0⟩
      ⟨"", "newer", some 99, none, 0⟩ 0).1 rfl,
   (c10_invalid_remote_ignored [⟨"loc", "", some 1, none, 0⟩] [] [] []
      ⟨"loc", "", some 1, none, 0⟩ ⟨"loc", "", some 1, none, 0⟩ 0).2.2
      (by decide) (by decide) (by decide) (by decide) (by decide) (by decide)⟩

-- ===== Claim C7: envelope normalization =====

theorem loadFallback_cases (d : JsonVal) :
    (∃ l, loadFallback d = Except.ok l ∧
      (ShapeBareArray d l ∨ ShapeWrappedAnnouncements d l)) ∨
    (loadFallback d = Except.error CloudError.formatError ∧
      ∀ l, ¬ ShapeBareArray d l ∧ ¬ ShapeWrappedAnnouncements d l) := by
  cases d with
  | arr l => left; exact ⟨l, rfl, Or.inl rfl⟩
  | obj fs =>
    cases hann : jsGet (JsonVal.obj fs) "announcements" with
    | none =>
      right
      refine ⟨by simp [loadFallback, hann], fun l =>
        ⟨fun hsh => JsonVal.noConfusion hsh, fun hsh => ?_⟩⟩
      have hsh2 : jsGet (JsonVal.obj fs) "announcements" = some (JsonVal.arr l) := hsh
      rw [hann] at hsh2
      exact Option.noConfusion hsh2
    | some v =>
      cases v with
      | arr l => left; exact ⟨l, by simp [loadFallback, hann], Or.inr hann⟩
      | obj fs2 =>
        right
        refine ⟨by simp [loadFallback, hann], fun l =>
          ⟨fun hsh => JsonVal.noConfusion hsh, fun hsh => ?_⟩⟩
        have hsh2 : jsGet (JsonVal.obj fs) "announcements" = some (JsonVal.arr l) := hsh
        rw [hann] at hsh2
        exact JsonVal.noConfusion (Option.some.inj hsh2)
      | str s =>
        right
        refine ⟨by simp [loadFallback, hann], fun l =>
          ⟨fun hsh => JsonVal.noConfusion hsh, fun hsh => ?_⟩⟩
        have hsh2 : jsGet (JsonVal.obj fs) "announcements" = some (JsonVal.arr l) := hsh
        rw [hann] at hsh2
        exact JsonVal.noConfusion (Option.some.inj hsh2)
      | num n =>
        right
        refine ⟨by simp [loadFallback, hann], fun l =>
          ⟨fun hsh => JsonVal.noConfusion hsh, fun hsh => ?_⟩⟩
        have hsh2 : jsGet (JsonVal.obj fs) "announcements" = some (JsonVal.arr l) := hsh
        rw [hann] at hsh2
        exact JsonVal.noConfusion (Option.some.inj hsh2)
      | jbool b =>
        right
        refine ⟨by simp [loadFallback, hann], fun l =>
          ⟨fun hsh => JsonVal.noConfusion hsh, fun hsh => ?_⟩⟩
        have hsh2 : jsGet (JsonVal.obj fs) "announcements" = some (JsonVal.arr l) := hsh
        rw [hann] at hsh2
        exact JsonVal.noConfusion (Option.some.inj hsh2)
      | null =>
        right
        refine ⟨by simp [loadFallback, hann], fun l =>
          ⟨fun hsh => JsonVal.noConfusion hsh, fun hsh => ?_⟩⟩
        have hsh2 : jsGet (JsonVal.obj fs) "announcements" = some (JsonVal.arr l) := hsh
        rw [hann] at hsh2
        exact JsonVal.noConfusion (Option.some.inj hsh2)
  | str s =>
    right
    refine ⟨rfl, fun l => ⟨fun hsh => JsonVal.noConfusion hsh, fun hsh => ?_⟩⟩
    have hsh2 : (none : Option JsonVal) = some (JsonVal.arr l) := hsh
    exact Option.noConfusion hsh2
  | num n =>
    right
    refine ⟨rfl, fun l => ⟨fun hsh => JsonVal.noConfusion hsh, fun hsh => ?_⟩⟩
    have hsh2 : (none : Option JsonVal) = some (JsonVal.arr l) := hsh
    exact Option.noConfusion hsh2
  | jbool b =>
    right
    refine ⟨rfl, fun l => ⟨fun hsh => JsonVal.noConfusion hsh, fun hsh => ?_⟩⟩
    have hsh2 : (none : Option JsonVal) = some (JsonVal.arr l) := hsh
    exact Option.noConfusion hsh2
  | null =>
    right
    refine ⟨rfl, fun l => ⟨fun hsh => JsonVal.noConfusion hsh, fun hsh => ?_⟩⟩
    have hsh2 : (none : Option JsonVal) = some (JsonVal.arr l) := hsh
    exact Option.noConfusion hsh2

theorem shape34_refute_none (d : JsonVal) (hrec : jsGet d "record" = none) :
    (∀ l, ¬ ShapeRecordArray d l) ∧ ∀ l, ¬ ShapeRecordWrapped d l := by
  constructor
  · intro l h
    have h2 : jsGet d "record" = some (JsonVal.arr l) := h
    rw [hrec] at h2
    exact Option.noConfusion h2
  · intro l h
    rcases h with ⟨r, hr, _⟩
    rw [hrec] at hr
    exact Option.noConfusion hr

theorem shape34_refute_some (d r : JsonVal) (hrec : jsGet d "record" = some r)
    (hnarr : ∀ l, r ≠ JsonVal.arr l)
    (hann : ∀ l, jsGet r "announcements" ≠ some (JsonVal.arr l)) :
    (∀ l, ¬ ShapeRecordArray d l) ∧ ∀ l, ¬ ShapeRecordWrapped d l := by
  constructor
  · intro l h
    have h2 : jsGet d "record" = some (JsonVal.arr l) := h
    rw [hrec] at h2
    exact hnarr l (Option.some.inj h2)
  · intro l h
    rcases h with ⟨r', hr', hann'⟩
    rw [hrec] at hr'
    obtain rfl := Option.some.inj hr'
    exact hann l hann'

theorem loadNormalize_fallback_lift (d : JsonVal)
    (he : loadNormalize d = loadFallback d)
    (h3 : ∀ l, ¬ ShapeRecordArray d l) (h4 : ∀ l, ¬ ShapeRecordWrapped d l) :
    (∃ l, loadNormalize d = Except.ok l ∧ AnyShape d l) ∨
    (loadNormalize d = Except.error CloudError.formatError ∧ ∀ l, ¬ AnyShape d l) := by
  rcases loadFallback_cases d with ⟨l, hok, hsh⟩ | ⟨herr, hnsh⟩
  · left
    refine ⟨l, he.trans hok, ?_⟩
    rcases hsh with h | h
    · exact Or.inl h
    · exact Or.inr (Or.inl h)
  · right
    refine ⟨he.trans herr, fun l hany => ?_⟩
    rcases hany with h | h | h | h
    · exact (hnsh l).1 h
    · exact (hnsh l).2 h
    · exact h3 l h
    · exact h4 l h

/-- The normalization chain either returns an array contained in one of the
four recognized envelope shapes, or fails with the format error precisely
when the body matches none of them. -/
theorem loadNormalize_cases (d : JsonVal) :
    (∃ l, loadNormalize d = Except.ok l ∧ AnyShape d l) ∨
    (loadNormalize d = Except.error CloudError.formatError ∧ ∀ l, ¬ AnyShape d l) := by
  cases hrec : jsGet d "record" with
  | none =>
    have he : loadNormalize d = loadFallback d := by
      unfold loadNormalize
      rw [hrec]
    have h34 := shape34_refute_none d hrec
    exact loadNormalize_fallback_lift d he h34.1 h34.2
  | some r =>
    cases r with
    | arr l =>
      left
      refine ⟨l, ?_, Or.inr (Or.inr (Or.inl hrec))⟩
      unfold loadNormalize
      rw [hrec]
      rfl
    | obj fs =>
      cases hann : jsGet (JsonVal.obj fs) "announcements" with
      | none =>
        have he : loadNormalize d = loadFallback d := by
          unfold loadNormalize
          rw [hrec]
          simp [jsTruthy, hann]
        have h34 := shape34_refute_some d (JsonVal.obj fs) hrec
          (fun l h => JsonVal.noConfusion h)
          (fun l h => by rw [hann] at h; exact Option.noConfusion h)
        exact loadNormalize_fallback_lift d he h34.1 h34.2
      | some v =>
        cases v with
        | arr l =>
          left
          refine ⟨l, ?_, Or.inr (Or.inr (Or.inr ⟨JsonVal.obj fs, hrec, hann⟩))⟩
          unfold loadNormalize
          rw [hrec]
          simp [jsTruthy, hann]
        | obj fs2 =>
          have he : loadNormalize d = loadFallback d := by
            unfold loadNormalize
            rw [hrec]
            simp [jsTruthy, hann]
          have h34 := shape34_refute_some d (JsonVal.obj fs) hrec
            (fun l h => JsonVal.noConfusion h)
            (fun l h => by rw [hann] at h; exact JsonVal.noConfusion (Option.some.inj h))
          exact loadNormalize_fallback_lift d he h34.1 h34.2
        | str s =>
          have he : loadNormalize d = loadFallback d := by
            unfold loadNormalize
            rw [hrec]
            simp [jsTruthy, hann]
          have h34 := shape34_refute_some d (JsonVal.obj fs) hrec
            (fun l h => JsonVal.noConfusion h)
            (fun l h => by rw [hann] at h; exact JsonVal.noConfusion (Option.some.inj h))
          exact loadNormalize_fallback_lift d he h34.1 h34.2
        | num n =>
          have he : loadNormalize d = loadFallback d := by
            unfold loadNormalize
            rw [hrec]
            simp [jsTruthy, hann]
          have h34 := shape34_refute_some d (JsonVal.obj fs) hrec
            (fun l h => JsonVal.noConfusion h)
            (fun l h => by rw [hann] at h; exact JsonVal.noConfusion (Option.some.inj h))
          exact loadNormalize_fallback_lift d he h34.1 h34.2
        | jbool b =>
          have he : loadNormalize d = loadFallback d := by
            unfold loadNormalize
            rw [hrec]
            simp [jsTruthy, hann]
          have h34 := shape34_refute_some d (JsonVal.obj fs) hrec
            (fun l h => JsonVal.noConfusion h)
            (fun l h => by rw [hann] at h; exact JsonVal.noConfusion (Option.some.inj h))
          exact loadNormalize_fallback_lift d he h34.1 h34.2
        | null =>
          have he : loadNormalize d = loadFallback d := by
            unfold loadNormalize
            rw [hrec]
            simp [jsTruthy, hann]
          have h34 := shape34_refute_some d (JsonVal.obj fs) hrec
            (fun l h => JsonVal.noConfusion h)
            (fun l h => by rw [hann] at h; exact JsonVal.noConfusion (Option.some.inj h))
          exact loadNormalize_fallback_lift d he h34.1 h34.2
    | str s =>
      have he : loadNormalize d = loadFallback d := by
        unfold loadNormalize
        rw [hrec]
        simp [jsTruthy, jsGet]
      have h34 := shape34_refute_some d (JsonVal.str s) hrec
        (fun l h => JsonVal.noConfusion h)
        (fun l h => by
          have h2 : (none : Option JsonVal) = some (JsonVal.arr l) := h
          exact Option.noConfusion h2)
      exact loadNormalize_fallback_lift d he h34.1 h34.2
    | num n =>
      have he : loadNormalize d = loadFallback d := by
        unfold loadNormalize
        rw [hrec]
        simp [jsTruthy, jsGet]
      have h34 := shape34_refute_some d (JsonVal.num n) hrec
        (fun l h => JsonVal.noConfusion h)
        (fun l h => by
          have h2 : (none : Option JsonVal) = some (JsonVal.arr l) := h
          exact Option.noConfusion h2)
      exact loadNormalize_fallback_lift d he h34.1 h34.2
    | jbool b =>
      have he : loadNormalize d = loadFallback d := by
        unfold loadNormalize
        rw [hrec]
        simp [jsTruthy, jsGet]
      have h34 := shape34_refute_some d (JsonVal.jbool b) hrec
        (fun l h => JsonVal.noConfusion h)
        (fun l h => by
          have h2 : (none : Option JsonVal) = some (JsonVal.arr l) := h
          exact Option.noConfusion h2)
      exact loadNormalize_fallback_lift d he h34.1 h34.2
    | null =>
      have he : loadNormalize d = loadFallback d := by
        unfold loadNormalize
        rw [hrec]
        simp [jsTruthy]
      have h34 := shape34_refute_some d JsonVal.null hrec
        (fun l h => JsonVal.noConfusion h)
        (fun l h => by
          have h2 : (none : Option JsonVal) = some (JsonVal.arr l) := h
          exact Option.noConfusion h2)
      exact loadNormalize_fallback_lift d he h34.1 h34.2

/-- C7 (envelope normalization): on a network failure (`none`) or a non-2xx
status, `loadFromCloud` fails with the unavailability error and returns no
data; on an HTTP success it returns a contained record array exactly when the
body matches one of the four recognized shapes (bare array, wrapped object,
wrapper holding an array, wrapper holding a wrapped object), and fails with
the format error on every other body. -/
theorem c7_envelope_normalization (resp : Option (Nat × JsonVal)) :
    (resp = none → loadFromCloud resp = Except.error CloudError.unavailable) ∧
    (∀ st d, resp = some (st, d) → st < 200 ∨ 300 ≤ st →
      loadFromCloud resp = Except.error CloudError.unavailable) ∧
    (∀ st d, resp = some (st, d) → 200 ≤ st → st < 300 →
      ((∃ l, AnyShape d l) → ∃ l, AnyShape d l ∧ loadFromCloud resp = Except.ok l) ∧
      ((∀ l, ¬ AnyShape d l) → loadFromCloud resp = Except.error CloudError.formatError)) := by
  refine ⟨?_, ?_, ?_⟩
  · intro h
    rw [h]
    rfl
  · intro st d h hbad
    rw [h]
    rcases hbad with h1 | h1 <;> simp [loadFromCloud, h1]
  · intro st d h hlo hhi
    rw [h]
    have h1 : ¬ st < 200 := not_lt.mpr hlo
    have h2 : ¬ 300 ≤ st := not_le.mpr hhi
    have he : loadFromCloud (some (st, d)) = loadNormalize d := by
      simp [loadFromCloud, h1, h2]
    rcases loadNormalize_cases d with ⟨l, hok, hsh⟩ | ⟨herr, hnsh⟩
    · exact ⟨fun _ => ⟨l, hsh, he.trans hok⟩, fun hns => absurd hsh (hns l)⟩
    · refine ⟨fun hex => ?_, fun _ => he.trans herr⟩
      rcases hex with ⟨l, hl⟩
      exact absurd hl (hnsh l)

theorem c7_witness :
    ∃ l, AnyShape (JsonVal.obj [("record", JsonVal.arr [])]) l ∧
      loadFromCloud (some (200, JsonVal.obj [("record", JsonVal.arr [])])) = Except.ok l :=
  ((c7_envelope_normalization (some (200, JsonVal.obj [("record", JsonVal.arr [])]))).2.2
      200 (JsonVal.obj [("record", JsonVal.arr [])]) rfl (by decide) (by decide)).1
    ⟨[], Or.inr (Or.inr (Or.inl rfl))⟩
